import Mathlib

/-!
Verification of the max-balance computation of `src/main.py` (function `main`,
lines 136-164), together with a model of the fetch/collect pipeline (lines
118-133) and its exception-handling decorator (lines 53-63).

Calendar dates are embedded as year/month/day triples ordered
lexicographically, mirroring Python `datetime.date` comparison.  The backward
scan over transactions is embedded as `maxBalanceLoop`; the Python expression
`max_balance['balance']` evaluated while `max_balance is None` would raise a
`TypeError`, which the embedding models as the `Except.error` branch of
`stepUpdate`.
-/

/-- A calendar date, as in Python `datetime.date`.  The Python type moreover
guarantees `1 ≤ month ≤ 12` and `1 ≤ day ≤ 31` (see `Date.Valid`). -/
structure Date where
  year : Nat
  month : Nat
  day : Nat
deriving DecidableEq

namespace Date

/-- Lexicographic order on dates, as Python compares `datetime.date` values. -/
def le (a b : Date) : Prop :=
  a.year < b.year ∨ (a.year = b.year ∧
    (a.month < b.month ∨ (a.month = b.month ∧ a.day ≤ b.day)))

/-- Strict lexicographic order on dates. -/
def lt (a b : Date) : Prop :=
  a.year < b.year ∨ (a.year = b.year ∧
    (a.month < b.month ∨ (a.month = b.month ∧ a.day < b.day)))

instance (a b : Date) : Decidable (Date.le a b) := by
  unfold Date.le; infer_instance

instance (a b : Date) : Decidable (Date.lt a b) := by
  unfold Date.lt; infer_instance

/-- The invariant Python `datetime.date` enforces on its fields (weakened to
a uniform day bound, which suffices for all order reasoning here). -/
def Valid (d : Date) : Prop :=
  1 ≤ d.month ∧ d.month ≤ 12 ∧ 1 ≤ d.day ∧ d.day ≤ 31

instance (d : Date) : Decidable d.Valid := by
  unfold Date.Valid; infer_instance

theorem le_refl (a : Date) : Date.le a a := by
  simp [Date.le]

theorem le_trans {a b c : Date} (h1 : Date.le a b) (h2 : Date.le b c) :
    Date.le a c := by
  obtain ⟨y1, m1, d1⟩ := a
  obtain ⟨y2, m2, d2⟩ := b
  obtain ⟨y3, m3, d3⟩ := c
  simp only [Date.le] at *
  omega

theorem le_of_lt {a b : Date} (h : Date.lt a b) : Date.le a b := by
  obtain ⟨y1, m1, d1⟩ := a
  obtain ⟨y2, m2, d2⟩ := b
  simp only [Date.le, Date.lt] at *
  omega

theorem lt_irrefl (a : Date) : ¬ Date.lt a a := by
  simp [Date.lt]

theorem lt_trans {a b c : Date} (h1 : Date.lt a b) (h2 : Date.lt b c) :
    Date.lt a c := by
  obtain ⟨y1, m1, d1⟩ := a
  obtain ⟨y2, m2, d2⟩ := b
  obtain ⟨y3, m3, d3⟩ := c
  simp only [Date.lt] at *
  omega

theorem lt_of_le_of_lt {a b c : Date} (h1 : Date.le a b) (h2 : Date.lt b c) :
    Date.lt a c := by
  obtain ⟨y1, m1, d1⟩ := a
  obtain ⟨y2, m2, d2⟩ := b
  obtain ⟨y3, m3, d3⟩ := c
  simp only [Date.le, Date.lt] at *
  omega

theorem lt_of_lt_of_le {a b c : Date} (h1 : Date.lt a b) (h2 : Date.le b c) :
    Date.lt a c := by
  obtain ⟨y1, m1, d1⟩ := a
  obtain ⟨y2, m2, d2⟩ := b
  obtain ⟨y3, m3, d3⟩ := c
  simp only [Date.le, Date.lt] at *
  omega

theorem not_lt_of_le {a b : Date} (h : Date.le a b) : ¬ Date.lt b a := by
  obtain ⟨y1, m1, d1⟩ := a
  obtain ⟨y2, m2, d2⟩ := b
  simp only [Date.le, Date.lt] at *
  omega

/-- Lexicographic order is dominated by the year component. -/
theorem year_le_of_le {a b : Date} (h : Date.le a b) : a.year ≤ b.year := by
  obtain ⟨y1, m1, d1⟩ := a
  obtain ⟨y2, m2, d2⟩ := b
  simp only [Date.le] at *
  omega

theorem year_le_of_lt {a b : Date} (h : Date.lt a b) : a.year ≤ b.year :=
  year_le_of_le (le_of_lt h)

theorem lt_of_year_lt {a b : Date} (h : a.year < b.year) : Date.lt a b := by
  obtain ⟨y1, m1, d1⟩ := a
  obtain ⟨y2, m2, d2⟩ := b
  simp only [Date.lt] at *
  omega

end Date

theorem Date_le_yearEnd {y : Nat} {d : Date} (hval : d.Valid)
    (hy : d.year = y) : Date.le d ⟨y, 12, 31⟩ := by
  obtain ⟨y1, m1, d1⟩ := d
  simp only [Date.le, Date.Valid] at *
  omega

theorem Date_yearStart_le {y : Nat} {d : Date} (hval : d.Valid)
    (hy : d.year = y) : Date.le ⟨y, 1, 1⟩ d := by
  obtain ⟨y1, m1, d1⟩ := d
  simp only [Date.le, Date.Valid] at *
  omega

/-- A cleared/reconciled transaction as consumed by the loop: a date and a
signed milliunit amount. -/
structure Transaction where
  date : Date
  amount : Int
deriving DecidableEq

/-- The `max_balance` dict built at `src/main.py:143-147` and `158-162`. -/
structure MaxBalanceResult where
  balance : Int
  start : Date
  «end» : Date
deriving DecidableEq

/-- December 31 of the target year, `datetime.date(CONFIG['year'], 12, 31)`. -/
def yearEnd (y : Nat) : Date := ⟨y, 12, 31⟩

/-- January 1 of the target year, `datetime.date(CONFIG['year'], 1, 1)`. -/
def yearStart (y : Nat) : Date := ⟨y, 1, 1⟩

/-- The seeding conditional at `src/main.py:141-147`: on the first transaction
whose date falls in the target year (while `max_balance is None`), seed the
best record with the pre-subtraction running balance, the transaction's date
as `start`, and December 31 of the target year as `end`. -/
def stepSeed (year : Nat) (cb : Int) (t : Transaction)
    (mb : Option MaxBalanceResult) : Option MaxBalanceResult :=
  if t.date.year = year ∧ mb = none then
    some ⟨cb, t.date, yearEnd year⟩
  else
    mb

/-- The `try: start = transactions[idx + 1]['date'] except IndexError` block at
`src/main.py:153-156`, expressed on the tail of the transaction list: the date
of the next older transaction, or January 1 of the target year if none. -/
def startFrom (year : Nat) (rest : List Transaction) : Date :=
  match rest with
  | [] => yearStart year
  | t2 :: _ => t2.date

/-- The update conditional at `src/main.py:149-162`.  `cb1` is the running
balance after subtracting the current transaction's amount.  Evaluating
`max_balance['balance']` with `max_balance is None` would raise a Python
`TypeError`; that branch is modelled as `Except.error ()`. -/
def stepUpdate (year : Nat) (cb1 : Int) (t : Transaction)
    (rest : List Transaction) (mb1 : Option MaxBalanceResult) :
    Except Unit (Option MaxBalanceResult) :=
  if t.date.year = year then
    match mb1 with
    | none => Except.error ()
    | some b =>
      if b.balance < cb1 then
        Except.ok (some ⟨cb1, startFrom year rest, t.date⟩)
      else
        Except.ok mb1
  else
    Except.ok mb1

/-- The backward scan `for idx, transaction in enumerate(account['transactions'])`
at `src/main.py:139-162`, threading the running balance and the best record. -/
def maxBalanceLoop (year : Nat) :
    Int → Option MaxBalanceResult → List Transaction →
    Except Unit (Option MaxBalanceResult)
  | _, mb, [] => Except.ok mb
  | cb, mb, t :: rest =>
    match stepUpdate year (cb - t.amount) t rest (stepSeed year cb t mb) with
    | Except.error e => Except.error e
    | Except.ok mb2 => maxBalanceLoop year (cb - t.amount) mb2 rest

/-- The whole max-balance computation for one account, `src/main.py:136-164`:
start from the cleared balance with no best record and scan the (descending)
transaction list. -/
def computeMaxBalance (currentBalance : Int) (transactions : List Transaction)
    (targetYear : Nat) : Except Unit (Option MaxBalanceResult) :=
  maxBalanceLoop targetYear currentBalance none transactions

theorem maxBalanceLoop_cons (year : Nat) (cb : Int)
    (mb : Option MaxBalanceResult) (t : Transaction) (rest : List Transaction) :
    maxBalanceLoop year cb mb (t :: rest) =
      match stepUpdate year (cb - t.amount) t rest (stepSeed year cb t mb) with
      | Except.error e => Except.error e
      | Except.ok mb2 => maxBalanceLoop year (cb - t.amount) mb2 rest := rfl

/-- Case analysis of the seeding conditional. -/
theorem stepSeed_spec (year : Nat) (cb : Int) (t : Transaction)
    (mb : Option MaxBalanceResult) :
    (t.date.year = year ∧ mb = none ∧
      stepSeed year cb t mb = some ⟨cb, t.date, yearEnd year⟩) ∨
    ((t.date.year ≠ year ∨ mb ≠ none) ∧ stepSeed year cb t mb = mb) := by
  unfold stepSeed
  split_ifs with h
  · exact Or.inl ⟨h.1, h.2, rfl⟩
  · exact Or.inr ⟨by tauto, rfl⟩

/-- Case analysis of the update conditional. -/
theorem stepUpdate_spec (year : Nat) (cb1 : Int) (t : Transaction)
    (rest : List Transaction) (mb1 : Option MaxBalanceResult) :
    (t.date.year ≠ year ∧ stepUpdate year cb1 t rest mb1 = Except.ok mb1) ∨
    (t.date.year = year ∧ mb1 = none ∧
      stepUpdate year cb1 t rest mb1 = Except.error ()) ∨
    (∃ b, t.date.year = year ∧ mb1 = some b ∧ ¬ b.balance < cb1 ∧
      stepUpdate year cb1 t rest mb1 = Except.ok (some b)) ∨
    (∃ b, t.date.year = year ∧ mb1 = some b ∧ b.balance < cb1 ∧
      stepUpdate year cb1 t rest mb1 =
        Except.ok (some ⟨cb1, startFrom year rest, t.date⟩)) := by
  unfold stepUpdate
  split_ifs with h
  · cases mb1 with
    | none => exact Or.inr (Or.inl ⟨h, rfl, rfl⟩)
    | some b =>
      by_cases hb : b.balance < cb1
      · refine Or.inr (Or.inr (Or.inr ⟨b, h, rfl, hb, ?_⟩))
        simp [hb]
      · refine Or.inr (Or.inr (Or.inl ⟨b, h, rfl, hb, ?_⟩))
        simp [hb]
  · exact Or.inl ⟨h, rfl⟩

/-- If the current transaction is dated in the target year, the best record is
some value right after seeding (the guard of the seeding conditional matches
the guard of the later dereference). -/
theorem stepSeed_inyear (year : Nat) (cb : Int) (t : Transaction)
    (mb : Option MaxBalanceResult) (h : t.date.year = year) :
    ∃ b, stepSeed year cb t mb = some b := by
  unfold stepSeed
  cases mb with
  | none => exact ⟨⟨cb, t.date, yearEnd year⟩, by simp [h]⟩
  | some b => exact ⟨b, by simp⟩

/-- The scan never reaches the `None`-dereference branch: it always returns
`Except.ok`, from any intermediate state. -/
theorem loop_ok (year : Nat) :
    ∀ (txs : List Transaction) (cb : Int) (mb : Option MaxBalanceResult),
      ∃ o, maxBalanceLoop year cb mb txs = Except.ok o := by
  intro txs
  induction txs with
  | nil => intro cb mb; exact ⟨mb, rfl⟩
  | cons t rest ih =>
    intro cb mb
    rw [maxBalanceLoop_cons]
    rcases stepUpdate_spec year (cb - t.amount) t rest (stepSeed year cb t mb)
      with ⟨_, he⟩ | ⟨hy, hn, _⟩ | ⟨b, _, _, _, he⟩ | ⟨b, _, _, _, he⟩
    · rw [he]; exact ih _ _
    · obtain ⟨b, hb⟩ := stepSeed_inyear year cb t mb hy
      rw [hb] at hn; exact absurd hn (by simp)
    · rw [he]; exact ih _ _
    · rw [he]; exact ih _ _

/-- Once the best record is set, the loop result is set, and the final balance
is at least the current best balance. -/
theorem loop_mono (year : Nat) :
    ∀ (txs : List Transaction) (cb : Int) (b r : MaxBalanceResult),
      maxBalanceLoop year cb (some b) txs = Except.ok (some r) →
      b.balance ≤ r.balance := by
  intro txs
  induction txs with
  | nil =>
    intro cb b r h
    simp only [maxBalanceLoop] at h
    obtain rfl : b = r := by injection h with h'; injection h'
    exact le_refl _
  | cons t rest ih =>
    intro cb b r h
    rw [maxBalanceLoop_cons] at h
    have hseed : stepSeed year cb t (some b) = some b := by
      rcases stepSeed_spec year cb t (some b) with ⟨_, hn, _⟩ | ⟨_, he⟩
      · exact absurd hn (by simp)
      · exact he
    rw [hseed] at h
    rcases stepUpdate_spec year (cb - t.amount) t rest (some b)
      with ⟨_, he⟩ | ⟨_, hn, _⟩ | ⟨b', _, hb', _, he⟩ | ⟨b', _, hb', hlt, he⟩
    · rw [he] at h; exact ih _ _ _ h
    · exact absurd hn (by simp)
    · obtain rfl : b = b' := by injection hb'
      rw [he] at h; exact ih _ _ _ h
    · obtain rfl : b = b' := by injection hb'
      rw [he] at h
      exact le_of_lt (lt_of_lt_of_le hlt (ih _ _ _ h))

/-- If the best record is set, the result stays set. -/
theorem loop_some (year : Nat) :
    ∀ (txs : List Transaction) (cb : Int) (b : MaxBalanceResult),
      ∃ r, maxBalanceLoop year cb (some b) txs = Except.ok (some r) := by
  intro txs
  induction txs with
  | nil => intro cb b; exact ⟨b, rfl⟩
  | cons t rest ih =>
    intro cb b
    rw [maxBalanceLoop_cons]
    have hseed : stepSeed year cb t (some b) = some b := by
      rcases stepSeed_spec year cb t (some b) with ⟨_, hn, _⟩ | ⟨_, he⟩
      · exact absurd hn (by simp)
      · exact he
    rw [hseed]
    rcases stepUpdate_spec year (cb - t.amount) t rest (some b)
      with ⟨_, he⟩ | ⟨_, hn, _⟩ | ⟨b', _, _, _, he⟩ | ⟨b', _, _, _, he⟩
    · rw [he]; exact ih _ _
    · exact absurd hn (by simp)
    · rw [he]; exact ih _ _
    · rw [he]; exact ih _ _

/-- If no transaction is dated in the target year, the loop never touches the
best record. -/
theorem loop_no_inyear (year : Nat) :
    ∀ (txs : List Transaction) (cb : Int) (mb : Option MaxBalanceResult),
      (∀ t ∈ txs, t.date.year ≠ year) →
      maxBalanceLoop year cb mb txs = Except.ok mb := by
  intro txs
  induction txs with
  | nil => intro cb mb _; rfl
  | cons t rest ih =>
    intro cb mb hno
    have hty : t.date.year ≠ year := hno t (by simp)
    rw [maxBalanceLoop_cons]
    have hseed : stepSeed year cb t mb = mb := by
      rcases stepSeed_spec year cb t mb with ⟨hy, _, _⟩ | ⟨_, he⟩
      · exact absurd hy hty
      · exact he
    rw [hseed]
    rcases stepUpdate_spec year (cb - t.amount) t rest mb
      with ⟨_, he⟩ | ⟨hy, _, _⟩ | ⟨b', hy, _, _, _⟩ | ⟨b', hy, _, _, _⟩
    · rw [he]; exact ih _ _ (fun t' ht' => hno t' (by simp [ht']))
    · exact absurd hy hty
    · exact absurd hy hty
    · exact absurd hy hty

/-- Any transaction dated in the target year forces a set (non-absent) result. -/
theorem loop_seeded (year : Nat) :
    ∀ (txs : List Transaction) (cb : Int) (mb : Option MaxBalanceResult)
      (t0 : Transaction), t0 ∈ txs → t0.date.year = year →
      ∃ r, maxBalanceLoop year cb mb txs = Except.ok (some r) := by
  intro txs
  induction txs with
  | nil => intro _ _ t0 h0; simp at h0
  | cons t rest ih =>
    intro cb mb t0 h0 hy0
    rw [maxBalanceLoop_cons]
    by_cases hty : t.date.year = year
    · obtain ⟨b, hb⟩ := stepSeed_inyear year cb t mb hty
      rw [hb]
      rcases stepUpdate_spec year (cb - t.amount) t rest (some b)
        with ⟨hny, _⟩ | ⟨_, hn, _⟩ | ⟨b', _, _, _, he⟩ | ⟨b', _, _, _, he⟩
      · exact absurd hty hny
      · exact absurd hn (by simp)
      · rw [he]; exact loop_some year rest _ _
      · rw [he]; exact loop_some year rest _ _
    · have hseed : stepSeed year cb t mb = mb := by
        rcases stepSeed_spec year cb t mb with ⟨hy, _, _⟩ | ⟨_, he⟩
        · exact absurd hy hty
        · exact he
      rw [hseed]
      have h0' : t0 ∈ rest := by
        rcases List.mem_cons.mp h0 with rfl | h'
        · exact absurd hy0 hty
        · exact h'
      rcases stepUpdate_spec year (cb - t.amount) t rest mb
        with ⟨_, he⟩ | ⟨hy, _, _⟩ | ⟨b', hy, _, _, _⟩ | ⟨b', hy, _, _, _⟩
      · rw [he]; exact ih _ _ t0 h0' hy0
      · exact absurd hy hty
      · exact absurd hy hty
      · exact absurd hy hty

theorem maxBalanceLoop_cons_ok (year : Nat) (cb : Int)
    (mb : Option MaxBalanceResult) (t : Transaction) (rest : List Transaction)
    (mb2 : Option MaxBalanceResult)
    (h : stepUpdate year (cb - t.amount) t rest (stepSeed year cb t mb) =
      Except.ok mb2) :
    maxBalanceLoop year cb mb (t :: rest) =
      maxBalanceLoop year (cb - t.amount) mb2 rest := by
  rw [maxBalanceLoop_cons, h]

/-- The running-balance values computed by the subtraction at
`src/main.py:150` while processing transactions dated in the target year. -/
def inYearRunning (year : Nat) : Int → List Transaction → List Int
  | _, [] => []
  | cb, t :: rest =>
    (if t.date.year = year then [cb - t.amount] else []) ++
      inYearRunning year (cb - t.amount) rest

/-- The final balance dominates every running-balance value computed at an
in-target-year transaction, from any intermediate state of the scan. -/
theorem loop_running_le (year : Nat) :
    ∀ (txs : List Transaction) (cb : Int) (mb : Option MaxBalanceResult)
      (r : MaxBalanceResult),
      maxBalanceLoop year cb mb txs = Except.ok (some r) →
      ∀ v ∈ inYearRunning year cb txs, v ≤ r.balance := by
  intro txs
  induction txs with
  | nil => intro cb mb r _ v hv; simp [inYearRunning] at hv
  | cons t rest ih =>
    intro cb mb r h v hv
    by_cases hty : t.date.year = year
    · obtain ⟨b, hb⟩ := stepSeed_inyear year cb t mb hty
      rcases stepUpdate_spec year (cb - t.amount) t rest (stepSeed year cb t mb)
        with ⟨hny, _⟩ | ⟨_, hn, _⟩ | ⟨b', _, hb', hnlt, he⟩ | ⟨b', _, hb', hlt, he⟩
      · exact absurd hty hny
      · rw [hb] at hn; exact absurd hn (by simp)
      · rw [maxBalanceLoop_cons_ok year cb mb t rest _ he] at h
        simp only [inYearRunning, hty, if_pos, List.mem_append,
          List.mem_singleton] at hv
        rcases hv with rfl | hv
        · exact le_trans (not_lt.mp hnlt) (loop_mono year rest _ _ _ h)
        · exact ih _ _ _ h v hv
      · rw [maxBalanceLoop_cons_ok year cb mb t rest _ he] at h
        simp only [inYearRunning, hty, if_pos, List.mem_append,
          List.mem_singleton] at hv
        rcases hv with rfl | hv
        · exact loop_mono year rest _ _ _ h
        · exact ih _ _ _ h v hv
    · rcases stepUpdate_spec year (cb - t.amount) t rest (stepSeed year cb t mb)
        with ⟨_, he⟩ | ⟨hy, _, _⟩ | ⟨b', hy, _, _, _⟩ | ⟨b', hy, _, _, _⟩
      · rw [maxBalanceLoop_cons_ok year cb mb t rest _ he] at h
        simp only [inYearRunning, hty, if_neg, List.nil_append] at hv
        exact ih _ _ _ h v hv
      · exact absurd hy hty
      · exact absurd hy hty
      · exact absurd hy hty

/-- Claim C3: for a well-formed (strictly descending) input on which a result
is returned, the returned balance is at least every running-balance value
computed while processing a transaction dated within the target year. -/
theorem returned_balance_ge_running (cb : Int) (txs : List Transaction)
    (y : Nat) (r : MaxBalanceResult)
    (hsorted : List.Pairwise (fun a b => Date.lt b.date a.date) txs)
    (hres : computeMaxBalance cb txs y = Except.ok (some r)) :
    ∀ v ∈ inYearRunning y cb txs, v ≤ r.balance :=
  loop_running_le y txs cb none r hres

theorem returned_balance_ge_running_witness : (800 : Int) ≤ 800 :=
  returned_balance_ge_running 500 [⟨⟨2024, 3, 1⟩, -300⟩] 2024
    ⟨800, ⟨2024, 1, 1⟩, ⟨2024, 3, 1⟩⟩ (by simp) (by rfl) 800 (by decide)

/-- Claim C4: the result is absent exactly when no transaction is dated in the
target year, and absence is delivered on the non-error channel (`Except.ok
none`), never as an error. -/
theorem absent_iff_no_inyear (cb : Int) (txs : List Transaction) (y : Nat) :
    computeMaxBalance cb txs y = Except.ok none ↔
      ∀ t ∈ txs, t.date.year ≠ y := by
  constructor
  · intro h t ht hy
    obtain ⟨r, hr⟩ := loop_seeded y txs cb none t ht hy
    rw [computeMaxBalance] at h
    rw [h] at hr
    simp at hr
  · intro h
    exact loop_no_inyear y txs cb none h

/-- Claim C9: the scan never dereferences an absent best record; on every
input (sorted or not) the computation returns `Except.ok`, because the
comparison at `src/main.py:152` is guarded by the same in-target-year
condition that triggers seeding earlier in the same iteration. -/
theorem computeMaxBalance_never_errors (cb : Int) (txs : List Transaction)
    (y : Nat) : ∃ o, computeMaxBalance cb txs y = Except.ok o :=
  loop_ok y txs cb none

/-- Claim C5: the comparison in the update step is strict; a running balance
equal to (or below) the current best balance leaves the best record unchanged,
and only a strictly greater one replaces it. -/
theorem stepUpdate_strict (y : Nat) (cb1 : Int) (t : Transaction)
    (rest : List Transaction) (b : MaxBalanceResult)
    (hy : t.date.year = y) :
    (cb1 ≤ b.balance →
      stepUpdate y cb1 t rest (some b) = Except.ok (some b)) ∧
    (b.balance < cb1 →
      stepUpdate y cb1 t rest (some b) =
        Except.ok (some ⟨cb1, startFrom y rest, t.date⟩)) := by
  constructor
  · intro h
    simp [stepUpdate, hy, not_lt.mpr h]
  · intro h
    simp [stepUpdate, hy, h]

theorem stepUpdate_strict_witness :
    stepUpdate 2024 5 ⟨⟨2024, 7, 2⟩, 3⟩ []
        (some ⟨5, ⟨2024, 1, 1⟩, ⟨2024, 12, 31⟩⟩) =
      Except.ok (some ⟨5, ⟨2024, 1, 1⟩, ⟨2024, 12, 31⟩⟩) :=
  (stepUpdate_strict 2024 5 ⟨⟨2024, 7, 2⟩, 3⟩ []
    ⟨5, ⟨2024, 1, 1⟩, ⟨2024, 12, 31⟩⟩ rfl).1 (le_refl 5)

/-- Claim C6: when an update fires, the stored start date is the date of the
next older transaction (index `idx + 1`), or January 1 of the target year if
the updating transaction is the last one of the sequence. -/
theorem stepUpdate_start_choice (y : Nat) (cb1 : Int) (t t2 : Transaction)
    (rr : List Transaction) (b : MaxBalanceResult)
    (hy : t.date.year = y) (hgt : b.balance < cb1) :
    stepUpdate y cb1 t [] (some b) =
      Except.ok (some ⟨cb1, yearStart y, t.date⟩) ∧
    stepUpdate y cb1 t (t2 :: rr) (some b) =
      Except.ok (some ⟨cb1, t2.date, t.date⟩) := by
  constructor
  · simp [stepUpdate, hy, hgt, startFrom]
  · simp [stepUpdate, hy, hgt, startFrom]

theorem stepUpdate_start_choice_witness :
    stepUpdate 2024 9 ⟨⟨2024, 7, 2⟩, 3⟩ []
        (some ⟨5, ⟨2024, 1, 1⟩, ⟨2024, 12, 31⟩⟩) =
      Except.ok (some ⟨9, yearStart 2024, ⟨2024, 7, 2⟩⟩) ∧
    stepUpdate 2024 9 ⟨⟨2024, 7, 2⟩, 3⟩ [⟨⟨2024, 5, 1⟩, 2⟩]
        (some ⟨5, ⟨2024, 1, 1⟩, ⟨2024, 12, 31⟩⟩) =
      Except.ok (some ⟨9, ⟨2024, 5, 1⟩, ⟨2024, 7, 2⟩⟩) :=
  ⟨(stepUpdate_start_choice 2024 9 ⟨⟨2024, 7, 2⟩, 3⟩ ⟨⟨2024, 5, 1⟩, 2⟩ []
      ⟨5, ⟨2024, 1, 1⟩, ⟨2024, 12, 31⟩⟩ rfl (by decide)).1,
   (stepUpdate_start_choice 2024 9 ⟨⟨2024, 7, 2⟩, 3⟩ ⟨⟨2024, 5, 1⟩, 2⟩ []
      ⟨5, ⟨2024, 1, 1⟩, ⟨2024, 12, 31⟩⟩ rfl (by decide)).2⟩

/-- One account record, as assembled by `src/main.py:128-137,164`. -/
structure AccountState where
  cleared_balance : Int
  transactions : List Transaction
  max_balance : Option MaxBalanceResult

/-- The per-account assignment `account['max_balance'] = max_balance` at
`src/main.py:164`: the only field the computation writes. -/
def setMaxBalance (year : Nat) (a : AccountState) : Except Unit AccountState :=
  match computeMaxBalance a.cleared_balance a.transactions year with
  | Except.error e => Except.error e
  | Except.ok mb => Except.ok { a with max_balance := mb }

/-- Claim C8: the computation is deterministic (a pure function of its
arguments) and leaves its inputs (cleared balance and transaction list)
unmodified. -/
theorem setMaxBalance_pure (y : Nat) (a : AccountState) :
    setMaxBalance y a = setMaxBalance y a ∧
    ∀ a', setMaxBalance y a = Except.ok a' →
      a'.cleared_balance = a.cleared_balance ∧
      a'.transactions = a.transactions := by
  refine ⟨rfl, ?_⟩
  intro a' h
  unfold setMaxBalance at h
  cases hc : computeMaxBalance a.cleared_balance a.transactions y with
  | error e => rw [hc] at h; simp at h
  | ok mb =>
    rw [hc] at h
    simp only [Except.ok.injEq] at h
    exact ⟨by rw [← h], by rw [← h]⟩

theorem setMaxBalance_pure_witness :
    setMaxBalance 2024 ⟨1000, [⟨⟨2024, 6, 1⟩, 200⟩], none⟩ =
      setMaxBalance 2024 ⟨1000, [⟨⟨2024, 6, 1⟩, 200⟩], none⟩ ∧
    ((1000 : Int) = 1000 ∧
      ([⟨⟨2024, 6, 1⟩, 200⟩] : List Transaction) = [⟨⟨2024, 6, 1⟩, 200⟩]) := by
  have h := setMaxBalance_pure 2024 ⟨1000, [⟨⟨2024, 6, 1⟩, 200⟩], none⟩
  exact ⟨h.1, h.2 ⟨1000, [⟨⟨2024, 6, 1⟩, 200⟩],
    some ⟨1000, ⟨2024, 6, 1⟩, ⟨2024, 12, 31⟩⟩⟩ rfl⟩

/-- The YNAB API exception, `ynab.rest.ApiException`. -/
inductive ApiError
  | apiException

/-- The Python `TypeError` raised by iterating over `None`. -/
inductive PyError
  | typeError

/-- The decorator at `src/main.py:53-63`: a failing call has its exception
caught (a message is printed) and the wrapper returns `None`. -/
def handle_exception {α : Type} (result : Except ApiError α) : Option α :=
  match result with
  | Except.ok a => some a
  | Except.error _ => none

def goAccounts {β α : Type} (accountsOf : β → Option (List α)) :
    List β → Except PyError (List α)
  | [] => Except.ok []
  | b :: rest =>
    match accountsOf b with
    | none => Except.error PyError.typeError
    | some accs =>
      match goAccounts accountsOf rest with
      | Except.error e => Except.error e
      | Except.ok others => Except.ok (accs ++ others)

/-- The account-collection loop at `src/main.py:118-125`: iterate over the
budget list and, per budget, over its account list.  Iterating over the `None`
a failed (swallowed) fetch returns raises a Python `TypeError`, modelled as
`Except.error PyError.typeError`. -/
def collectAccounts {β α : Type} (budgets : Option (List β))
    (accountsOf : β → Option (List α)) : Except PyError (List α) :=
  match budgets with
  | none => Except.error PyError.typeError
  | some bs => goAccounts accountsOf bs

/-- Claim C7 (code bug): when the account fetch for the first of two budgets
fails, the wrapper swallows the exception and returns `None`; the collection
loop then iterates over `None` and aborts with a `TypeError` instead of
continuing with the second budget. -/
theorem failed_fetch_aborts :
    collectAccounts (some [0, 1])
        (fun b => handle_exception
          (if b = 0 then Except.error ApiError.apiException
           else Except.ok [7])) =
      Except.error PyError.typeError := rfl

/-- Claim C1: the computation reproduces the spec's two worked examples. -/
theorem maxBalance_worked_examples :
    computeMaxBalance 1000 [⟨⟨2024, 6, 1⟩, 200⟩] 2024 =
      Except.ok (some ⟨1000, ⟨2024, 6, 1⟩, ⟨2024, 12, 31⟩⟩) ∧
    computeMaxBalance 500 [⟨⟨2024, 3, 1⟩, -300⟩] 2024 =
      Except.ok (some ⟨800, ⟨2024, 1, 1⟩, ⟨2024, 3, 1⟩⟩) := by
  constructor <;> rfl

/-- Date `d` is no later than the optional upper cap. -/
def capOK (cap : Option Date) (d : Date) : Prop :=
  match cap with
  | none => True
  | some u => Date.le d u

/-- Modelled from the spec (§3, §4.1): walking the transaction history
backward from `cb`, the balance `b` held on day `d`, where `cap` is the date
of the previously undone (next newer) transaction.  A balance holds from the
day of the transaction that produced it through the day of the next newer
transaction inclusive (on a transaction's day both the pre- and the
post-transaction balance count as attained). -/
def attainedAux (cb : Int) (cap : Option Date) :
    List Transaction → Date → Int → Prop
  | [], d, b => b = cb ∧ capOK cap d
  | t :: rest, d, b =>
    (b = cb ∧ capOK cap d ∧ Date.le t.date d) ∨
      attainedAux (cb - t.amount) (some t.date) rest d b

/-- Modelled from the spec: balance `b` was attained on day `d` given current
balance `cb` and the (descending) transaction history `txs`. -/
def specAttainedOn (cb : Int) (txs : List Transaction) (d : Date) (b : Int) :
    Prop :=
  attainedAux cb none txs d b

/-- A date falls within the target year (as the code classifies dates,
`transaction['date'].year == CONFIG['year']`). -/
def inYear (y : Nat) (d : Date) : Prop := d.year = y

/-- From any reachable intermediate state of a sorted scan, every balance
attained on a day of the target year is dominated by the final balance.
`cap` is the date of the previously processed (next newer) transaction; the
state hypothesis records that a set best record was seeded at an in-year
transaction no newer than `cap` and already dominates the pre-subtraction
running balance whenever `cap` itself is in-year. -/
theorem loop_attained_le (y : Nat) :
    ∀ (txs : List Transaction) (cap : Option Date) (cb : Int)
      (mb : Option MaxBalanceResult) (r : MaxBalanceResult),
      maxBalanceLoop y cb mb txs = Except.ok (some r) →
      List.Pairwise (fun a b => Date.lt b.date a.date) txs →
      (∀ u, cap = some u → ∀ t' ∈ txs, Date.lt t'.date u) →
      (∀ b0, mb = some b0 → ∃ u, cap = some u ∧ u.year ≤ y ∧
        (u.year = y → cb ≤ b0.balance)) →
      ∀ d b, inYear y d → attainedAux cb cap txs d b → b ≤ r.balance := by
  intro txs
  induction txs with
  | nil =>
    intro cap cb mb r h _ _ hmb d b hd hatt
    simp only [maxBalanceLoop] at h
    obtain rfl : mb = some r := by injection h
    obtain ⟨rfl, hcapok⟩ := hatt
    obtain ⟨u, rfl, huy, himp⟩ := hmb r rfl
    have hle : Date.le d u := hcapok
    have hdy : d.year = y := hd
    have := Date.year_le_of_le hle
    exact himp (by omega)
  | cons t rest ih =>
    intro cap cb mb r h hsorted hcap hmb d b hd hatt
    obtain ⟨hs1, hs2⟩ := List.pairwise_cons.mp hsorted
    have hdy : d.year = y := hd
    by_cases hty : t.date.year = y
    · rcases stepUpdate_spec y (cb - t.amount) t rest (stepSeed y cb t mb)
        with ⟨hny, _⟩ | ⟨_, hn, _⟩ | ⟨b', _, hb', hnlt, he⟩ |
          ⟨b', _, hb', hlt, he⟩
      · exact absurd hty hny
      · obtain ⟨b1, hb1⟩ := stepSeed_inyear y cb t mb hty
        rw [hb1] at hn; exact absurd hn (by simp)
      · rw [maxBalanceLoop_cons_ok y cb mb t rest _ he] at h
        have hbr : b'.balance ≤ r.balance := loop_mono y rest _ _ _ h
        rcases hatt with ⟨hbe, hcapok, htd⟩ | htail
        · rw [hbe]
          cases mb with
          | none =>
            have hseed : stepSeed y cb t none =
                some ⟨cb, t.date, yearEnd y⟩ := by simp [stepSeed, hty]
            rw [hseed] at hb'
            obtain rfl : (⟨cb, t.date, yearEnd y⟩ : MaxBalanceResult) = b' :=
              by injection hb'
            exact hbr
          | some b0 =>
            obtain ⟨u, rfl, huy, himp⟩ := hmb b0 rfl
            have hle : Date.le d u := hcapok
            have := Date.year_le_of_le hle
            have hcb : cb ≤ b0.balance := himp (by omega)
            have hseed : stepSeed y cb t (some b0) = some b0 := by
              simp [stepSeed]
            rw [hseed] at hb'
            obtain rfl : b0 = b' := by injection hb'
            exact le_trans hcb hbr
        · refine ih (some t.date) _ (some b') r h hs2 ?_ ?_ d b hd htail
          · intro u hu
            obtain rfl : t.date = u := by injection hu
            exact hs1
          · intro b0 hb0
            obtain rfl : b' = b0 := by injection hb0
            exact ⟨t.date, rfl, le_of_eq hty, fun _ => not_lt.mp hnlt⟩
      · rw [maxBalanceLoop_cons_ok y cb mb t rest _ he] at h
        have hbr : cb - t.amount ≤ r.balance := loop_mono y rest _ _ _ h
        rcases hatt with ⟨hbe, hcapok, htd⟩ | htail
        · rw [hbe]
          cases mb with
          | none =>
            have hseed : stepSeed y cb t none =
                some ⟨cb, t.date, yearEnd y⟩ := by simp [stepSeed, hty]
            rw [hseed] at hb'
            obtain rfl : (⟨cb, t.date, yearEnd y⟩ : MaxBalanceResult) = b' :=
              by injection hb'
            exact le_trans (le_of_lt hlt) hbr
          | some b0 =>
            obtain ⟨u, rfl, huy, himp⟩ := hmb b0 rfl
            have hle : Date.le d u := hcapok
            have := Date.year_le_of_le hle
            have hcb : cb ≤ b0.balance := himp (by omega)
            have hseed : stepSeed y cb t (some b0) = some b0 := by
              simp [stepSeed]
            rw [hseed] at hb'
            obtain rfl : b0 = b' := by injection hb'
            exact le_trans hcb (le_trans (le_of_lt hlt) hbr)
        · refine ih (some t.date) _ _ r h hs2 ?_ ?_ d b hd htail
          · intro u hu
            obtain rfl : t.date = u := by injection hu
            exact hs1
          · intro b0 hb0
            obtain rfl : (⟨cb - t.amount, startFrom y rest, t.date⟩ :
                MaxBalanceResult) = b0 := by injection hb0
            exact ⟨t.date, rfl, le_of_eq hty, fun _ => le_refl _⟩
    · have hseed : stepSeed y cb t mb = mb := by
        rcases stepSeed_spec y cb t mb with ⟨hy', _, _⟩ | ⟨_, he⟩
        · exact absurd hy' hty
        · exact he
      rcases stepUpdate_spec y (cb - t.amount) t rest (stepSeed y cb t mb)
        with ⟨_, he⟩ | ⟨hy', _, _⟩ | ⟨b', hy', _, _, _⟩ | ⟨b', hy', _, _, _⟩
      · rw [maxBalanceLoop_cons_ok y cb mb t rest _ he, hseed] at h
        rcases hatt with ⟨hbe, hcapok, htd⟩ | htail
        · rw [hbe]
          cases mb with
          | none =>
            have hno : ∀ t' ∈ rest, t'.date.year ≠ y := by
              intro t' ht' hyt'
              have h1 := Date.year_le_of_lt (hs1 t' ht')
              have h2 := Date.year_le_of_le htd
              omega
            rw [loop_no_inyear y rest _ none hno] at h
            simp at h
          | some b0 =>
            obtain ⟨u, rfl, huy, himp⟩ := hmb b0 rfl
            have hle : Date.le d u := hcapok
            have := Date.year_le_of_le hle
            have hcb : cb ≤ b0.balance := himp (by omega)
            exact le_trans hcb (loop_mono y rest _ _ _ h)
        · refine ih (some t.date) _ mb r h hs2 ?_ ?_ d b hd htail
          · intro u hu
            obtain rfl : t.date = u := by injection hu
            exact hs1
          · intro b0 hb0
            obtain ⟨u, hcapeq, huy, _⟩ := hmb b0 hb0
            have h1 := Date.year_le_of_lt (hcap u hcapeq t (by simp))
            exact ⟨t.date, rfl, by omega, fun hyy => absurd hyy hty⟩
      · exact absurd hy' hty
      · exact absurd hy' hty
      · exact absurd hy' hty

/-- From any reachable intermediate state of a sorted scan, every day in the
returned record's inclusive range attains the returned balance.  `A` is the
attainment predicate of the original full input, and the lifting hypothesis
says that attainment relative to the current suffix implies `A`. -/
theorem loop_span_attained (y : Nat) (A : Date → Int → Prop) :
    ∀ (txs : List Transaction) (cap : Option Date) (cb : Int)
      (mb : Option MaxBalanceResult) (r : MaxBalanceResult),
      maxBalanceLoop y cb mb txs = Except.ok (some r) →
      List.Pairwise (fun a b => Date.lt b.date a.date) txs →
      (∀ u, cap = some u → ∀ t' ∈ txs, Date.lt t'.date u) →
      (mb = none → ∀ u, cap = some u → u.year ≠ y) →
      (∀ b0, mb = some b0 → ∀ d, Date.le b0.start d → Date.le d b0.«end» →
        A d b0.balance) →
      (∀ d b, attainedAux cb cap txs d b → A d b) →
      ∀ d, Date.le r.start d → Date.le d r.«end» → A d r.balance := by
  intro txs
  induction txs with
  | nil =>
    intro cap cb mb r h _ _ _ hmb _
    simp only [maxBalanceLoop] at h
    obtain rfl : mb = some r := by injection h
    exact hmb r rfl
  | cons t rest ih =>
    intro cap cb mb r h hsorted hcap hnone hmb hlift
    obtain ⟨hs1, hs2⟩ := List.pairwise_cons.mp hsorted
    have hcap' : ∀ u, some t.date = some u → ∀ t' ∈ rest,
        Date.lt t'.date u := by
      intro u hu
      obtain rfl : t.date = u := by injection hu
      exact hs1
    have hlift' : ∀ d b, attainedAux (cb - t.amount) (some t.date) rest d b →
        A d b := fun d b hx => hlift d b (Or.inr hx)
    have hupdspan : t.date.year = y →
        ∀ d, Date.le (startFrom y rest) d → Date.le d t.date →
          A d (cb - t.amount) := by
      intro _ d hd1 hd2
      refine hlift' d _ ?_
      cases rest with
      | nil => exact ⟨rfl, hd2⟩
      | cons t2 rr => exact Or.inl ⟨rfl, hd2, hd1⟩
    by_cases hty : t.date.year = y
    · rcases stepUpdate_spec y (cb - t.amount) t rest (stepSeed y cb t mb)
        with ⟨hny, _⟩ | ⟨_, hn, _⟩ | ⟨b', _, hb', hnlt, he⟩ |
          ⟨b', _, hb', hlt, he⟩
      · exact absurd hty hny
      · obtain ⟨b1, hb1⟩ := stepSeed_inyear y cb t mb hty
        rw [hb1] at hn; exact absurd hn (by simp)
      · rw [maxBalanceLoop_cons_ok y cb mb t rest _ he] at h
        refine ih (some t.date) _ (some b') r h hs2 hcap'
          (fun h' => absurd h' (by simp)) ?_ hlift'
        intro b0 hb0
        obtain rfl : b' = b0 := by injection hb0
        cases mb with
        | none =>
          have hseed : stepSeed y cb t none =
              some ⟨cb, t.date, yearEnd y⟩ := by simp [stepSeed, hty]
          rw [hseed] at hb'
          obtain rfl : (⟨cb, t.date, yearEnd y⟩ : MaxBalanceResult) = b' :=
            by injection hb'
          intro d hd1 hd2
          refine hlift d _ (Or.inl ⟨rfl, ?_, hd1⟩)
          cases cap with
          | none => trivial
          | some u =>
            have hne := hnone rfl u rfl
            have h1 := Date.year_le_of_lt (hcap u rfl t (by simp))
            have h2 := Date.year_le_of_le hd2
            exact Date.le_of_lt (Date.lt_of_year_lt (by
              simp only [yearEnd] at h2
              omega))
        | some b0' =>
          have hseed : stepSeed y cb t (some b0') = some b0' := by
            simp [stepSeed]
          rw [hseed] at hb'
          obtain rfl : b0' = b' := by injection hb'
          exact hmb _ rfl
      · rw [maxBalanceLoop_cons_ok y cb mb t rest _ he] at h
        refine ih (some t.date) _ _ r h hs2 hcap'
          (fun h' => absurd h' (by simp)) ?_ hlift'
        intro b0 hb0
        obtain rfl : (⟨cb - t.amount, startFrom y rest, t.date⟩ :
            MaxBalanceResult) = b0 := by injection hb0
        exact hupdspan hty
    · have hseed : stepSeed y cb t mb = mb := by
        rcases stepSeed_spec y cb t mb with ⟨hy', _, _⟩ | ⟨_, he⟩
        · exact absurd hy' hty
        · exact he
      rcases stepUpdate_spec y (cb - t.amount) t rest (stepSeed y cb t mb)
        with ⟨_, he⟩ | ⟨hy', _, _⟩ | ⟨b', hy', _, _, _⟩ | ⟨b', hy', _, _, _⟩
      · rw [maxBalanceLoop_cons_ok y cb mb t rest _ he, hseed] at h
        refine ih (some t.date) _ mb r h hs2 hcap' ?_ hmb hlift'
        intro _ u hu
        obtain rfl : t.date = u := by injection hu
        exact hty
      · exact absurd hy' hty
      · exact absurd hy' hty
      · exact absurd hy' hty

/-- From any reachable intermediate state of a sorted scan, no input
transaction (as captured by the predicate `Q`) is dated strictly inside the
returned record's range.  Processed transactions are those `Q`-transactions
not in the current suffix; the state hypotheses record that they are no older
than `cap`, that they are out-of-year while unseeded, that they avoid the
interior of the current best record, and that the remaining suffix is no
newer than the current best record's start. -/
theorem loop_no_tx_inside (y : Nat) (Q : Transaction → Prop) :
    ∀ (txs : List Transaction) (cap : Option Date) (cb : Int)
      (mb : Option MaxBalanceResult) (r : MaxBalanceResult),
      maxBalanceLoop y cb mb txs = Except.ok (some r) →
      List.Pairwise (fun a b => Date.lt b.date a.date) txs →
      (∀ u, cap = some u → ∀ t' ∈ txs, Date.lt t'.date u) →
      (∀ t', Q t' → t' ∈ txs ∨ ∃ u, cap = some u ∧ Date.le u t'.date) →
      (mb = none → ∀ t', Q t' → t' ∈ txs ∨ t'.date.year ≠ y) →
      (∀ b0, mb = some b0 → ∀ t', Q t' → t' ∈ txs ∨
        ¬(Date.lt b0.start t'.date ∧ Date.lt t'.date b0.«end»)) →
      (∀ b0, mb = some b0 → ∀ t' ∈ txs, Date.le t'.date b0.start) →
      ∀ t', Q t' → ¬(Date.lt r.start t'.date ∧ Date.lt t'.date r.«end») := by
  intro txs
  induction txs with
  | nil =>
    intro cap cb mb r h _ _ _ _ hmbC _ t' hq
    simp only [maxBalanceLoop] at h
    obtain rfl : mb = some r := by injection h
    rcases hmbC r rfl t' hq with hmem | hnin
    · simp at hmem
    · exact hnin
  | cons t rest ih =>
    intro cap cb mb r h hsorted hcap hQ hnone hmbC hrem t' hq
    obtain ⟨hs1, hs2⟩ := List.pairwise_cons.mp hsorted
    have hcap' : ∀ u, some t.date = some u → ∀ t2 ∈ rest,
        Date.lt t2.date u := by
      intro u hu
      obtain rfl : t.date = u := by injection hu
      exact hs1
    have hQ' : ∀ t2, Q t2 → t2 ∈ rest ∨ ∃ u, some t.date = some u ∧
        Date.le u t2.date := by
      intro t2 hq2
      rcases hQ t2 hq2 with hmem | ⟨u, hcapeq, hle⟩
      · rcases List.mem_cons.mp hmem with heq | hmem'
        · exact Or.inr ⟨t.date, rfl, by rw [heq]; exact Date.le_refl _⟩
        · exact Or.inl hmem'
      · exact Or.inr ⟨t.date, rfl,
          Date.le_of_lt (Date.lt_of_lt_of_le (hcap u hcapeq t (by simp)) hle)⟩
    have hQpast : ∀ t2, Q t2 → (t2 = t ∨ t2 ∈ rest) ∨
        Date.lt t.date t2.date := by
      intro t2 hq2
      rcases hQ t2 hq2 with hmem | ⟨u, hcapeq, hle⟩
      · exact Or.inl (List.mem_cons.mp hmem)
      · exact Or.inr (Date.lt_of_lt_of_le (hcap u hcapeq t (by simp)) hle)
    have hupd_inside : ∀ t2, Q t2 → t2 ∈ rest ∨
        ¬(Date.lt (startFrom y rest) t2.date ∧ Date.lt t2.date t.date) := by
      intro t2 hq2
      rcases hQpast t2 hq2 with (rfl | hmem') | hgt
      · exact Or.inr (fun hin => Date.lt_irrefl _ hin.2)
      · exact Or.inl hmem'
      · exact Or.inr (fun hin => Date.lt_irrefl _ (Date.lt_trans hin.2 hgt))
    have hupd_rem : ∀ t2 ∈ rest, Date.le t2.date (startFrom y rest) := by
      cases rest with
      | nil => intro t2 ht2; simp at ht2
      | cons t3 rr =>
        intro t2 ht2
        obtain ⟨hs21, _⟩ := List.pairwise_cons.mp hs2
        rcases List.mem_cons.mp ht2 with rfl | hmem'
        · exact Date.le_refl _
        · exact Date.le_of_lt (hs21 t2 hmem')
    by_cases hty : t.date.year = y
    · rcases stepUpdate_spec y (cb - t.amount) t rest (stepSeed y cb t mb)
        with ⟨hny, _⟩ | ⟨_, hn, _⟩ | ⟨b', _, hb', hnlt, he⟩ |
          ⟨b', _, hb', hlt, he⟩
      · exact absurd hty hny
      · obtain ⟨b1, hb1⟩ := stepSeed_inyear y cb t mb hty
        rw [hb1] at hn; exact absurd hn (by simp)
      · rw [maxBalanceLoop_cons_ok y cb mb t rest _ he] at h
        refine ih (some t.date) _ (some b') r h hs2 hcap' hQ'
          (fun h' => absurd h' (by simp)) ?_ ?_ t' hq
        · intro b0 hb0
          obtain rfl : b' = b0 := by injection hb0
          cases mb with
          | none =>
            have hseed : stepSeed y cb t none =
                some ⟨cb, t.date, yearEnd y⟩ := by simp [stepSeed, hty]
            rw [hseed] at hb'
            obtain rfl : (⟨cb, t.date, yearEnd y⟩ : MaxBalanceResult) = b' :=
              by injection hb'
            intro t2 hq2
            rcases hnone rfl t2 hq2 with hmem | hne
            · rcases List.mem_cons.mp hmem with rfl | hmem'
              · exact Or.inr (fun hin => Date.lt_irrefl _ hin.1)
              · exact Or.inl hmem'
            · refine Or.inr (fun hin => ?_)
              have h1 : t.date.year ≤ t2.date.year := Date.year_le_of_lt hin.1
              have h2 : t2.date.year ≤ y := Date.year_le_of_lt hin.2
              omega
          | some b0' =>
            have hseed : stepSeed y cb t (some b0') = some b0' := by
              simp [stepSeed]
            rw [hseed] at hb'
            obtain rfl : b0' = b' := by injection hb'
            intro t2 hq2
            rcases hmbC _ rfl t2 hq2 with hmem | hnin
            · rcases List.mem_cons.mp hmem with rfl | hmem'
              · exact Or.inr (fun hin =>
                  Date.not_lt_of_le (hrem _ rfl t2 (by simp)) hin.1)
              · exact Or.inl hmem'
            · exact Or.inr hnin
        · intro b0 hb0
          obtain rfl : b' = b0 := by injection hb0
          cases mb with
          | none =>
            have hseed : stepSeed y cb t none =
                some ⟨cb, t.date, yearEnd y⟩ := by simp [stepSeed, hty]
            rw [hseed] at hb'
            obtain rfl : (⟨cb, t.date, yearEnd y⟩ : MaxBalanceResult) = b' :=
              by injection hb'
            intro t2 ht2
            exact Date.le_of_lt (hs1 t2 ht2)
          | some b0' =>
            have hseed : stepSeed y cb t (some b0') = some b0' := by
              simp [stepSeed]
            rw [hseed] at hb'
            obtain rfl : b0' = b' := by injection hb'
            intro t2 ht2
            exact hrem _ rfl t2 (by simp [ht2])
      · rw [maxBalanceLoop_cons_ok y cb mb t rest _ he] at h
        refine ih (some t.date) _ _ r h hs2 hcap' hQ'
          (fun h' => absurd h' (by simp)) ?_ ?_ t' hq
        · intro b0 hb0
          obtain rfl : (⟨cb - t.amount, startFrom y rest, t.date⟩ :
              MaxBalanceResult) = b0 := by injection hb0
          exact hupd_inside
        · intro b0 hb0
          obtain rfl : (⟨cb - t.amount, startFrom y rest, t.date⟩ :
              MaxBalanceResult) = b0 := by injection hb0
          exact hupd_rem
    · have hseed : stepSeed y cb t mb = mb := by
        rcases stepSeed_spec y cb t mb with ⟨hy', _, _⟩ | ⟨_, he⟩
        · exact absurd hy' hty
        · exact he
      rcases stepUpdate_spec y (cb - t.amount) t rest (stepSeed y cb t mb)
        with ⟨_, he⟩ | ⟨hy', _, _⟩ | ⟨b', hy', _, _, _⟩ | ⟨b', hy', _, _, _⟩
      · rw [maxBalanceLoop_cons_ok y cb mb t rest _ he, hseed] at h
        refine ih (some t.date) _ mb r h hs2 hcap' hQ' ?_ ?_ ?_ t' hq
        · intro hmbn t2 hq2
          rcases hnone hmbn t2 hq2 with hmem | hne
          · rcases List.mem_cons.mp hmem with rfl | hmem'
            · exact Or.inr hty
            · exact Or.inl hmem'
          · exact Or.inr hne
        · intro b0 hb0 t2 hq2
          rcases hmbC b0 hb0 t2 hq2 with hmem | hnin
          · rcases List.mem_cons.mp hmem with rfl | hmem'
            · exact Or.inr (fun hin =>
                Date.not_lt_of_le (hrem b0 hb0 t2 (by simp)) hin.1)
            · exact Or.inl hmem'
          · exact Or.inr hnin
        · intro b0 hb0 t2 ht2
          exact hrem b0 hb0 t2 (by simp [ht2])
      · exact absurd hy' hty
      · exact absurd hy' hty
      · exact absurd hy' hty

/-- Well-formedness of a returned record: its range is an interval ending
within the target year. -/
def Shape (y : Nat) (b : MaxBalanceResult) : Prop :=
  Date.le b.start b.«end» ∧ b.«end».year = y ∧ Date.le b.«end» (yearEnd y)

/-- From any state whose best record is well-shaped, a sorted scan over valid
dates returns a well-shaped record. -/
theorem loop_shape (y : Nat) :
    ∀ (txs : List Transaction) (cb : Int) (mb : Option MaxBalanceResult)
      (r : MaxBalanceResult),
      maxBalanceLoop y cb mb txs = Except.ok (some r) →
      List.Pairwise (fun a b => Date.le b.date a.date) txs →
      (∀ t ∈ txs, t.date.Valid) →
      (∀ b0, mb = some b0 → Shape y b0) →
      Shape y r := by
  intro txs
  induction txs with
  | nil =>
    intro cb mb r h _ _ hmb
    simp only [maxBalanceLoop] at h
    obtain rfl : mb = some r := by injection h
    exact hmb r rfl
  | cons t rest ih =>
    intro cb mb r h hsorted hvalid hmb
    obtain ⟨hs1, hs2⟩ := List.pairwise_cons.mp hsorted
    have hv1 : t.date.Valid := hvalid t (by simp)
    have hv2 : ∀ t' ∈ rest, t'.date.Valid := fun t' ht' =>
      hvalid t' (by simp [ht'])
    have hshape1 : ∀ b1, stepSeed y cb t mb = some b1 → Shape y b1 := by
      intro b1 hb1
      rcases stepSeed_spec y cb t mb with ⟨hy', _, he⟩ | ⟨_, he⟩
      · rw [he] at hb1
        obtain rfl : (⟨cb, t.date, yearEnd y⟩ : MaxBalanceResult) = b1 := by
          injection hb1
        exact ⟨Date_le_yearEnd hv1 hy', rfl, Date.le_refl _⟩
      · rw [he] at hb1; exact hmb b1 hb1
    have hupd : ∀ rest', (∀ t' ∈ rest', Date.le t'.date t.date) →
        t.date.year = y →
        Shape y ⟨cb - t.amount, startFrom y rest', t.date⟩ := by
      intro rest' hle hy'
      refine ⟨?_, hy', Date_le_yearEnd hv1 hy'⟩
      cases rest' with
      | nil => exact Date_yearStart_le hv1 hy'
      | cons t2 rr => exact hle t2 (by simp)
    rcases stepUpdate_spec y (cb - t.amount) t rest (stepSeed y cb t mb)
      with ⟨_, he⟩ | ⟨hy', hn, _⟩ | ⟨b', _, hb', _, he⟩ | ⟨b', hy', hb', _, he⟩
    · rw [maxBalanceLoop_cons_ok y cb mb t rest _ he] at h
      refine ih _ _ _ h hs2 hv2 hshape1
    · obtain ⟨b, hb⟩ := stepSeed_inyear y cb t mb hy'
      rw [hb] at hn; exact absurd hn (by simp)
    · rw [maxBalanceLoop_cons_ok y cb mb t rest _ he] at h
      refine ih _ _ _ h hs2 hv2 ?_
      intro b0 hb0
      obtain rfl : b' = b0 := by injection hb0
      exact hshape1 _ hb'
    · rw [maxBalanceLoop_cons_ok y cb mb t rest _ he] at h
      refine ih _ _ _ h hs2 hv2 ?_
      intro b0 hb0
      obtain rfl : (⟨cb - t.amount, startFrom y rest, t.date⟩ :
          MaxBalanceResult) = b0 := by injection hb0
      exact hupd rest hs1 hy'

/-- Claim C10: on a sorted-descending input all dated on or after January 1 of
the target year, any returned result satisfies `start ≤ end`, and both dates
are no later than December 31 of the target year. -/
theorem result_range_bounds (cb : Int) (txs : List Transaction) (y : Nat)
    (r : MaxBalanceResult)
    (hsorted : List.Pairwise (fun a b => Date.le b.date a.date) txs)
    (hvalid : ∀ t ∈ txs, t.date.Valid)
    (hafter : ∀ t ∈ txs, Date.le (yearStart y) t.date)
    (hres : computeMaxBalance cb txs y = Except.ok (some r)) :
    Date.le r.start r.«end» ∧ Date.le r.start (yearEnd y) ∧
      Date.le r.«end» (yearEnd y) := by
  have h := loop_shape y txs cb none r hres hsorted hvalid (by simp)
  exact ⟨h.1, Date.le_trans h.1 h.2.2, h.2.2⟩

/-- Modelled from the spec: the Gregorian leap-year rule, as Python
`datetime` uses (needed only to measure "longest contiguous date span"). -/
def isLeap (y : Nat) : Bool :=
  (y % 4 == 0 && y % 100 != 0) || (y % 400 == 0)

/-- Modelled from the spec: days in the months strictly before month `m`. -/
def daysBeforeMonth (leap : Bool) (m : Nat) : Nat :=
  let base :=
    if m ≤ 1 then 0 else if m = 2 then 31 else if m = 3 then 59
    else if m = 4 then 90 else if m = 5 then 120 else if m = 6 then 151
    else if m = 7 then 181 else if m = 8 then 212 else if m = 9 then 243
    else if m = 10 then 273 else if m = 11 then 304 else 334
  if leap && 3 ≤ m then base + 1 else base

/-- Modelled from the spec: ordinal of a date within its year. -/
def dayOfYear (d : Date) : Nat :=
  daysBeforeMonth (isLeap d.year) d.month + d.day

/-- Modelled from the spec: proleptic Gregorian ordinal of a date (as Python
`date.toordinal`). -/
def absDay (d : Date) : Nat :=
  365 * (d.year - 1) + (d.year - 1) / 4 - (d.year - 1) / 100 +
    (d.year - 1) / 400 + dayOfYear d

/-- Modelled from the spec: length (in days) of the span from `s` to `e`. -/
def spanLen (s e : Date) : Nat := absDay e - absDay s

/-- Modelled from the spec: a span lying within the target year. -/
def inYearSpan (y : Nat) (s e : Date) : Prop :=
  Date.le (yearStart y) s ∧ Date.le e (yearEnd y)

/-- Modelled from the spec: the balance stayed at value `b` throughout the
inclusive span `[s, e]`. -/
def stayedAt (cb : Int) (txs : List Transaction) (b : Int) (s e : Date) :
    Prop :=
  ∀ d : Date, Date.le s d → Date.le d e → specAttainedOn cb txs d b

/-- Modelled from the spec: claim C2 as stated — any returned record carries
the highest balance attained during the target year, its `[start, end]` is
the longest contiguous in-year date span during which the balance stayed at
that value, and no transaction alters the balance within that inclusive
range. -/
def claimC2Holds (cb : Int) (txs : List Transaction) (y : Nat) : Prop :=
  ∀ r, computeMaxBalance cb txs y = Except.ok (some r) →
    (∀ d b, inYear y d → specAttainedOn cb txs d b → b ≤ r.balance) ∧
    stayedAt cb txs r.balance r.start r.«end» ∧
    (∀ s e, inYearSpan y s e → stayedAt cb txs r.balance s e →
      spanLen s e ≤ spanLen r.start r.«end») ∧
    (∀ t ∈ txs, Date.le r.start t.date → Date.le t.date r.«end» →
      t.amount = 0)

/-- Claim C2 (counterexample): on the strictly descending, well-formed input
`currentBalance = 100`, transactions `[{2024-12-01, +50}, {2024-02-01, -50}]`,
target year 2024, the code returns `{100, 2024-12-01, 2024-12-31}` (31 days),
although the balance also stayed at 100 throughout `[2024-01-01, 2024-02-01]`
(32 days): the returned range is not the longest span holding the maximum. -/
theorem claimC2_refuted :
    ¬ claimC2Holds 100 [⟨⟨2024, 12, 1⟩, 50⟩, ⟨⟨2024, 2, 1⟩, -50⟩] 2024 := by
  intro h
  obtain ⟨_, _, hlong, _⟩ :=
    h ⟨100, ⟨2024, 12, 1⟩, ⟨2024, 12, 31⟩⟩ (by rfl)
  have hst : stayedAt 100 [⟨⟨2024, 12, 1⟩, 50⟩, ⟨⟨2024, 2, 1⟩, -50⟩] 100
      ⟨2024, 1, 1⟩ ⟨2024, 2, 1⟩ := by
    intro d _ hd2
    exact Or.inr (Or.inr ⟨by norm_num, hd2⟩)
  have hle := hlong ⟨2024, 1, 1⟩ ⟨2024, 2, 1⟩ ⟨by decide, by decide⟩ hst
  exact absurd hle (by decide)

/-- Claim C2 (amended): for a well-formed input (strictly descending, valid
dates) on which a result is returned, the returned balance is the highest
balance attained on any day of the target year (and is itself attained on the
in-year day `end`), every day of the inclusive range `[start, end]` attains
it, and no transaction is dated strictly between `start` and `end`.  The
range is a contiguous span holding the maximum — the latest such — but not
necessarily the longest one. -/
theorem computeMaxBalance_correct (cb : Int) (txs : List Transaction)
    (y : Nat) (r : MaxBalanceResult)
    (hsorted : List.Pairwise (fun a b => Date.lt b.date a.date) txs)
    (hvalid : ∀ t ∈ txs, t.date.Valid)
    (hres : computeMaxBalance cb txs y = Except.ok (some r)) :
    (∀ d b, inYear y d → specAttainedOn cb txs d b → b ≤ r.balance) ∧
    (inYear y r.«end» ∧ specAttainedOn cb txs r.«end» r.balance) ∧
    (∀ d, Date.le r.start d → Date.le d r.«end» →
      specAttainedOn cb txs d r.balance) ∧
    (∀ t ∈ txs, ¬(Date.lt r.start t.date ∧ Date.lt t.date r.«end»)) := by
  have hsortedle : List.Pairwise (fun a b => Date.le b.date a.date) txs :=
    hsorted.imp (fun hab => Date.le_of_lt hab)
  have hshape := loop_shape y txs cb none r hres hsortedle hvalid (by simp)
  have hA := loop_attained_le y txs none cb none r hres hsorted
    (by simp) (by simp)
  have hB := loop_span_attained y (specAttainedOn cb txs) txs none cb none r
    hres hsorted (by simp) (by simp) (by simp) (fun d b hx => hx)
  have hC := loop_no_tx_inside y (fun t' => t' ∈ txs) txs none cb none r
    hres hsorted (by simp) (fun t' ht' => Or.inl ht')
    (fun _ t' ht' => Or.inl ht') (by simp) (by simp)
  exact ⟨hA, ⟨hshape.2.1, hB r.«end» hshape.1 (Date.le_refl _)⟩, hB, hC⟩

theorem computeMaxBalance_correct_witness :
    (∀ d b, inYear 2024 d → specAttainedOn 500 [⟨⟨2024, 3, 1⟩, -300⟩] d b →
      b ≤ (800 : Int)) ∧
    (inYear 2024 (⟨2024, 3, 1⟩ : Date) ∧
      specAttainedOn 500 [⟨⟨2024, 3, 1⟩, -300⟩] ⟨2024, 3, 1⟩ 800) ∧
    (∀ d, Date.le ⟨2024, 1, 1⟩ d → Date.le d ⟨2024, 3, 1⟩ →
      specAttainedOn 500 [⟨⟨2024, 3, 1⟩, -300⟩] d 800) ∧
    (∀ t ∈ [(⟨⟨2024, 3, 1⟩, -300⟩ : Transaction)],
      ¬(Date.lt ⟨2024, 1, 1⟩ t.date ∧ Date.lt t.date ⟨2024, 3, 1⟩)) :=
  computeMaxBalance_correct 500 [⟨⟨2024, 3, 1⟩, -300⟩] 2024
    ⟨800, ⟨2024, 1, 1⟩, ⟨2024, 3, 1⟩⟩ (by simp) (by decide) (by rfl)

theorem result_range_bounds_witness :
    Date.le (⟨2024, 1, 1⟩ : Date) ⟨2024, 3, 1⟩ ∧
    Date.le (⟨2024, 1, 1⟩ : Date) (yearEnd 2024) ∧
    Date.le (⟨2024, 3, 1⟩ : Date) (yearEnd 2024) :=
  result_range_bounds 500 [⟨⟨2024, 3, 1⟩, -300⟩] 2024
    ⟨800, ⟨2024, 1, 1⟩, ⟨2024, 3, 1⟩⟩ (by simp) (by decide) (by decide)
    (by rfl)
